import Mathlib

/-!
# Verification of the mydailyflow task tracker (src/app/page.tsx)

Shallow embedding of the single-page daily task tracker: a fixed collection
of six tasks (editable name, revenue flag), a 25-minute countdown timer bound
to an optional active task, and persistence of the task collection through a
JSON string stored under a single key.

Numbers that are JavaScript `number`s in the source (task ids, the seconds
counter) are modelled as `Int`.  The browser built-ins `JSON.parse` and
`JSON.stringify` are modelled by an executable JSON parser / serializer over
`List Char`, so that the load / persist pipeline can be reasoned about at the
level of the actual stored strings.
-/

namespace DailyFlow

/-- The `Task` interface from the source: integer `id`, string `name`,
boolean `isRGA` flag. -/
structure Task where
  id : Int
  name : String
  isRGA : Bool
deriving DecidableEq, Repr

/-- `STORAGE_KEY` constant from the source. -/
def STORAGE_KEY : String := "dailyflow-tasks"

/-- `createDefaultTasks`: six tasks with ids 1..6, empty names, false flags
(`Array.from({length: 6}, (_, i) => ({id: i + 1, name: "", isRGA: false}))`). -/
def createDefaultTasks : List Task :=
  (List.range 6).map fun i => { id := (i : Int) + 1, name := "", isRGA := false }

/-- `TIMER_SECONDS = 25 * 60` from the source. -/
def TIMER_SECONDS : Int := 25 * 60

/-! ## JSON values

A JSON value as produced by `JSON.parse`.  A numeric literal is kept as a
pair `mant * 10 ^ exp10` (mantissa and decimal exponent), which represents
exactly every decimal literal; the integer ids occurring in this system all
have `exp10 = 0`. -/

inductive Json where
  | null
  | bool (b : Bool)
  | num (mant : Int) (exp10 : Int)
  | str (s : String)
  | arr (elems : List Json)
  | obj (fields : List (String × Json))

/-! ## Serialization: model of `JSON.stringify` on a `Task[]` value -/

/-- Lower-case hex digit for a value below 16 (as used by `JSON.stringify`
for control-character escapes). -/
def hexDigitChar (n : Nat) : Char :=
  if n = 0 then '0' else if n = 1 then '1' else if n = 2 then '2'
  else if n = 3 then '3' else if n = 4 then '4' else if n = 5 then '5'
  else if n = 6 then '6' else if n = 7 then '7' else if n = 8 then '8'
  else if n = 9 then '9' else if n = 10 then 'a' else if n = 11 then 'b'
  else if n = 12 then 'c' else if n = 13 then 'd' else if n = 14 then 'e'
  else 'f'

/-- Escape of a single character inside a JSON string literal, following
`JSON.stringify`: quote and backslash get a backslash escape, the named
control characters use their short escapes, any other control character
below 0x20 becomes a `\u00XX` escape, and everything else is emitted
verbatim. -/
def escapeChar (c : Char) : List Char :=
  if c = '"' then ['\\', '"']
  else if c = '\\' then ['\\', '\\']
  else if c = '\x08' then ['\\', 'b']
  else if c = '\t' then ['\\', 't']
  else if c = '\n' then ['\\', 'n']
  else if c = '\x0c' then ['\\', 'f']
  else if c = '\r' then ['\\', 'r']
  else if c.toNat < 32 then
    ['\\', 'u', '0', '0', hexDigitChar (c.toNat / 16), hexDigitChar (c.toNat % 16)]
  else [c]

/-- Escape every character of a string body. -/
def escapeList : List Char → List Char
  | [] => []
  | c :: cs => escapeChar c ++ escapeList cs

/-- Rendering of a JSON string literal: quote, escaped body, quote. -/
def renderStringChars (s : List Char) : List Char :=
  '"' :: escapeList s ++ ['"']

/-- Decimal digit character for a value below 10. -/
def digitChar (n : Nat) : Char :=
  if n = 0 then '0' else if n = 1 then '1' else if n = 2 then '2'
  else if n = 3 then '3' else if n = 4 then '4' else if n = 5 then '5'
  else if n = 6 then '6' else if n = 7 then '7' else if n = 8 then '8'
  else '9'

/-- Decimal rendering of a natural number, most significant digit first.
The fuel (at least the number of digits) makes the recursion structural. -/
def renderNatAux : Nat → Nat → List Char
  | 0, _ => []
  | f + 1, n =>
    if n < 10 then [digitChar n]
    else renderNatAux f (n / 10) ++ [digitChar (n % 10)]

/-- Decimal rendering of a natural number. -/
def renderNat (n : Nat) : List Char :=
  renderNatAux (n + 1) n

/-- Decimal rendering of an integer (as `JSON.stringify` renders an integral
JavaScript number). -/
def renderInt (i : Int) : List Char :=
  if i < 0 then '-' :: renderNat i.natAbs else renderNat i.toNat

/-- Rendering of a JSON boolean literal. -/
def renderBoolChars (b : Bool) : List Char :=
  if b then ['t', 'r', 'u', 'e'] else ['f', 'a', 'l', 's', 'e']

/-- Rendering of one task as the JSON object
`{"id":<id>,"name":<name>,"isRGA":<flag>}` — the property order follows the
object literals in the source. -/
def renderTaskChars (t : Task) : List Char :=
  '\x7b' :: (renderStringChars "id".data ++ ':' :: renderInt t.id ++
    ',' :: renderStringChars "name".data ++ ':' :: renderStringChars t.name.data ++
    ',' :: renderStringChars "isRGA".data ++ ':' :: renderBoolChars t.isRGA ++ ['\x7d'])

/-- Comma-separated concatenation of rendered array elements. -/
def joinComma : List (List Char) → List Char
  | [] => []
  | [x] => x
  | x :: xs => x ++ ',' :: joinComma xs

/-- Rendering of the whole task array. -/
def renderTasksChars (ts : List Task) : List Char :=
  '[' :: joinComma (ts.map renderTaskChars) ++ [']']

/-- Model of `JSON.stringify(tasks)` as performed by the persist effect. -/
def stringifyTasks (ts : List Task) : String :=
  String.mk (renderTasksChars ts)

/-! ## Parsing: model of `JSON.parse` -/

/-- Skip JSON whitespace (space, tab, line feed, carriage return). -/
def skipWs : List Char → List Char
  | [] => []
  | c :: cs =>
    if c = ' ' ∨ c = '\t' ∨ c = '\n' ∨ c = '\r' then skipWs cs else c :: cs

/-- Value of one hex digit, if the character is a hex digit. -/
def hexVal (c : Char) : Option Nat :=
  if '0' ≤ c ∧ c ≤ '9' then some (c.toNat - 48)
  else if 'a' ≤ c ∧ c ≤ 'f' then some (c.toNat - 87)
  else if 'A' ≤ c ∧ c ≤ 'F' then some (c.toNat - 55)
  else none

/-- Short string escapes admitted after a backslash (besides `\uXXXX`). -/
def escChar (c : Char) : Option Char :=
  if c = '"' then some '"'
  else if c = '\\' then some '\\'
  else if c = '/' then some '/'
  else if c = 'b' then some '\x08'
  else if c = 'f' then some '\x0c'
  else if c = 'n' then some '\n'
  else if c = 'r' then some '\r'
  else if c = 't' then some '\t'
  else none

/-- Parse the body of a JSON string literal (after the opening quote) up to
and including the closing quote, returning the decoded characters and the
rest of the input.  Surrogate pairs in `\u` escapes are combined into one
scalar value; an unpaired surrogate escape is rejected (Lean strings hold
scalar values only — no data of this application can produce one).  The fuel
only bounds the recursion (one unit per decoded character); callers pass
more fuel than the input length, which one decoded character per consumed
input character can never exhaust. -/
def parseStringBody : Nat → List Char → Option (List Char × List Char)
  | 0, _ => none
  | _ + 1, [] => none
  | f + 1, c :: rest =>
    if c = '"' then some ([], rest)
    else if c = '\\' then
      match rest with
      | 'u' :: a :: b :: c2 :: d :: rest2 =>
        match hexVal a, hexVal b, hexVal c2, hexVal d with
        | some h1, some h2, some h3, some h4 =>
          let v := ((h1 * 16 + h2) * 16 + h3) * 16 + h4
          if v < 0xD800 ∨ 0xE000 ≤ v then
            match parseStringBody f rest2 with
            | some (s, r) => some (Char.ofNat v :: s, r)
            | none => none
          else if v < 0xDC00 then
            match rest2 with
            | '\\' :: 'u' :: a2 :: b2 :: c3 :: d2 :: rest3 =>
              match hexVal a2, hexVal b2, hexVal c3, hexVal d2 with
              | some g1, some g2, some g3, some g4 =>
                let w := ((g1 * 16 + g2) * 16 + g3) * 16 + g4
                if 0xDC00 ≤ w ∧ w < 0xE000 then
                  match parseStringBody f rest3 with
                  | some (s, r) =>
                    some (Char.ofNat (0x10000 + (v - 0xD800) * 1024 + (w - 0xDC00)) :: s, r)
                  | none => none
                else none
              | _, _, _, _ => none
            | _ => none
          else none
        | _, _, _, _ => none
      | e :: rest2 =>
        match escChar e with
        | some ec =>
          match parseStringBody f rest2 with
          | some (s, r) => some (ec :: s, r)
          | none => none
        | none => none
      | [] => none
    else if c.toNat < 32 then none
    else
      match parseStringBody f rest with
      | some (s, r) => some (c :: s, r)
      | none => none

/-- Take the longest prefix of decimal digits. -/
def takeDigits : List Char → List Char × List Char
  | [] => ([], [])
  | c :: cs =>
    if c.isDigit then
      let (ds, rest) := takeDigits cs
      (c :: ds, rest)
    else ([], c :: cs)

/-- Numeric value of a list of decimal digits. -/
def natOfDigits : List Char → Nat
  | [] => 0
  | c :: cs => natOfDigitsAux (c.toNat - 48) cs
where
  natOfDigitsAux (acc : Nat) : List Char → Nat
  | [] => acc
  | c :: cs => natOfDigitsAux (acc * 10 + (c.toNat - 48)) cs

/-- Assemble a parsed JSON number from its sign, integer digits, fraction
digits and decimal exponent. -/
def mkNum (neg : Bool) (intDs fracDs : List Char) (expVal : Int) : Json :=
  let mantNat : Nat := natOfDigits intDs * 10 ^ fracDs.length + natOfDigits fracDs
  let mant : Int := if neg then -(mantNat : Int) else (mantNat : Int)
  Json.num mant (expVal - fracDs.length)

/-- Parse the optional exponent part of a number and build the value. -/
def parseExpPart (neg : Bool) (intDs fracDs : List Char) :
    List Char → Option (Json × List Char)
  | c :: rest =>
    if c = 'e' ∨ c = 'E' then
      match rest with
      | s :: rest2 =>
        if s = '+' then
          match takeDigits rest2 with
          | ([], _) => none
          | (eds, rest3) => some (mkNum neg intDs fracDs (natOfDigits eds), rest3)
        else if s = '-' then
          match takeDigits rest2 with
          | ([], _) => none
          | (eds, rest3) => some (mkNum neg intDs fracDs (-(natOfDigits eds : Int)), rest3)
        else
          match takeDigits (s :: rest2) with
          | ([], _) => none
          | (eds, rest3) => some (mkNum neg intDs fracDs (natOfDigits eds), rest3)
      | [] => none
    else some (mkNum neg intDs fracDs 0, c :: rest)
  | [] => some (mkNum neg intDs fracDs 0, [])

/-- Parse a JSON number starting at its first digit (sign already consumed).
Leading zeros are rejected as in the JSON grammar. -/
def parseNumber (neg : Bool) (cs : List Char) : Option (Json × List Char) :=
  match takeDigits cs with
  | ([], _) => none
  | (ds, rest) =>
    if 1 < ds.length ∧ ds.head? = some '0' then none
    else
      match rest with
      | '.' :: rest2 =>
        match takeDigits rest2 with
        | ([], _) => none
        | (fs, rest3) => parseExpPart neg ds fs rest3
      | _ => parseExpPart neg ds [] rest

/-- Match an exact literal tail (used for `null`, `true`, `false`). -/
def expectLit (lit : List Char) (j : Json) (cs : List Char) :
    Option (Json × List Char) :=
  match lit, cs with
  | [], cs => some (j, cs)
  | l :: ls, c :: cs => if c = l then expectLit ls j cs else none
  | _ :: _, [] => none

mutual

/-- Fueled recursive-descent parse of one JSON value (leading whitespace
allowed).  The fuel only bounds the recursion; `parseJson` supplies more
fuel than any input of its length can consume. -/
def parseValue : Nat → List Char → Option (Json × List Char)
  | 0, _ => none
  | f + 1, cs =>
    match skipWs cs with
    | [] => none
    | c :: rest =>
      if c = 'n' then expectLit ['u', 'l', 'l'] Json.null rest
      else if c = 't' then expectLit ['r', 'u', 'e'] (Json.bool true) rest
      else if c = 'f' then expectLit ['a', 'l', 's', 'e'] (Json.bool false) rest
      else if c = '"' then
        match parseStringBody (rest.length + 1) rest with
        | some (s, r) => some (Json.str (String.mk s), r)
        | none => none
      else if c = '[' then
        match skipWs rest with
        | ']' :: rest2 => some (Json.arr [], rest2)
        | cs2 =>
          match parseElems f cs2 with
          | some (js, r) => some (Json.arr js, r)
          | none => none
      else if c = '\x7b' then
        match skipWs rest with
        | '\x7d' :: rest2 => some (Json.obj [], rest2)
        | cs2 =>
          match parseFields f cs2 with
          | some (fs, r) => some (Json.obj fs, r)
          | none => none
      else if c = '-' then parseNumber true rest
      else if c.isDigit then parseNumber false (c :: rest)
      else none

/-- Parse the elements of a non-empty JSON array, including the closing
bracket. -/
def parseElems : Nat → List Char → Option (List Json × List Char)
  | 0, _ => none
  | f + 1, cs =>
    match parseValue f cs with
    | none => none
    | some (j, rest) =>
      match skipWs rest with
      | c :: rest2 =>
        if c = ',' then
          match parseElems f rest2 with
          | some (js, r) => some (j :: js, r)
          | none => none
        else if c = ']' then some ([j], rest2)
        else none
      | [] => none

/-- Parse the fields of a non-empty JSON object, including the closing
brace. -/
def parseFields : Nat → List Char → Option (List (String × Json) × List Char)
  | 0, _ => none
  | f + 1, cs =>
    match skipWs cs with
    | c :: rest =>
      if c = '"' then
        match parseStringBody (rest.length + 1) rest with
        | some (k, rest2) =>
          match skipWs rest2 with
          | c2 :: rest3 =>
            if c2 = ':' then
              match parseValue f rest3 with
              | some (v, rest4) =>
                match skipWs rest4 with
                | c3 :: rest5 =>
                  if c3 = ',' then
                    match parseFields f rest5 with
                    | some (fs, r) => some ((String.mk k, v) :: fs, r)
                    | none => none
                  else if c3 = '\x7d' then some ([(String.mk k, v)], rest5)
                  else none
                | [] => none
              | none => none
            else none
          | [] => none
        | none => none
      else none
    | [] => none

end

/-- Model of `JSON.parse`: parse one value, allow trailing whitespace only.
`none` models the `SyntaxError` exception thrown on malformed input.  The
fuel `2 * length + 2` exceeds the recursion any input of that length can
force (each two nested calls consume at least one character). -/
def parseJson (raw : String) : Option Json :=
  match parseValue (2 * raw.length + 2) raw.data with
  | some (j, rest) => if skipWs rest = [] then some j else none
  | none => none

/-! ## The task-store boundary: `loadTasks` and the persist effect -/

/-- The JSON value `JSON.stringify` would produce for one task. -/
def encodeTask (t : Task) : Json :=
  Json.obj [("id", Json.num t.id 0), ("name", Json.str t.name), ("isRGA", Json.bool t.isRGA)]

/-- The default task collection as a JSON value (what the fallback branches
of `loadTasks` amount to at the persisted-data level). -/
def defaultTasksJson : List Json :=
  createDefaultTasks.map encodeTask

/-- Reading a task-shaped JSON object back into the `Task` interface.  The
source performs no such decoding — `JSON.parse(raw) as Task[]` is an
unchecked cast — but on well-shaped data the cast denotes exactly this. -/
def decodeTask : Json → Option Task
  | Json.obj [("id", Json.num i e), ("name", Json.str s), ("isRGA", Json.bool b)] =>
    if e = 0 then some { id := i, name := s, isRGA := b } else none
  | _ => none

/-- `loadTasks` from the source.  `windowDefined` models the
`typeof window === "undefined"` guard; `stored` models
`localStorage.getItem(STORAGE_KEY)`, with `Except.error ()` standing for the
storage read throwing (caught by the surrounding `try`).  The result is the
task collection at the JSON level: because the source casts the parsed value
with no element validation, an accepted array is returned verbatim. -/
def loadTasks (windowDefined : Bool) (stored : Except Unit (Option String)) :
    List Json :=
  if windowDefined = false then defaultTasksJson
  else
    match stored with
    | Except.error _ => defaultTasksJson
    | Except.ok none => defaultTasksJson
    | Except.ok (some raw) =>
      if raw = "" then defaultTasksJson
      else
        match parseJson raw with
        | some (Json.arr xs) => if xs.length = 6 then xs else defaultTasksJson
        | some _ => defaultTasksJson
        | none => defaultTasksJson

/-! ## Component state and event handlers -/

/-- The component state: the task collection plus the session state
(`activeId`, `secondsLeft`, `running`).  The cosmetic `inputFocused` flag and
the hydration flag play no part in any claim and are omitted. -/
structure AppState where
  tasks : List Task
  activeId : Option Int
  secondsLeft : Int
  running : Bool
deriving DecidableEq, Repr

/-- Initial component state (`useState` initializers). -/
def initState : AppState :=
  { tasks := createDefaultTasks, activeId := none,
    secondsLeft := TIMER_SECONDS, running := false }

/-- The collection update performed by `handleNameChange`:
`prev.map(t => t.id === id ? {...t, name: value} : t)`. -/
def updateName (id : Int) (value : String) (ts : List Task) : List Task :=
  ts.map fun t => if t.id = id then { t with name := value } else t

/-- The collection update performed by `toggleRGA`:
`prev.map(t => t.id === id ? {...t, isRGA: !t.isRGA} : t)`. -/
def updateRGA (id : Int) (ts : List Task) : List Task :=
  ts.map fun t => if t.id = id then { t with isRGA := !t.isRGA } else t

/-- `handleNameChange` as a state transformer. -/
def handleNameChange (id : Int) (value : String) (s : AppState) : AppState :=
  { s with tasks := updateName id value s.tasks }

/-- `toggleRGA` as a state transformer. -/
def toggleRGA (id : Int) (s : AppState) : AppState :=
  { s with tasks := updateRGA id s.tasks }

/-- `handleTaskClick`: re-tapping the active task deselects, otherwise the
tapped task becomes active; both branches stop the timer and reset the
counter to `TIMER_SECONDS`. -/
def handleTaskClick (id : Int) (s : AppState) : AppState :=
  if s.activeId = some id then
    { s with activeId := none, running := false, secondsLeft := TIMER_SECONDS }
  else
    { s with activeId := some id, running := false, secondsLeft := TIMER_SECONDS }

/-- `handleStart`: `if (secondsLeft > 0) setRunning(true)`. -/
def handleStart (s : AppState) : AppState :=
  if s.secondsLeft > 0 then { s with running := true } else s

/-- `handlePause`: `setRunning(false)`. -/
def handlePause (s : AppState) : AppState :=
  { s with running := false }

/-- The `setInterval` callback: at a remaining count of at most 1 it pins the
counter to 0 and stops the timer (clearing the interval), otherwise it
decrements by one. -/
def tick (s : AppState) : AppState :=
  if s.secondsLeft ≤ 1 then { s with secondsLeft := 0, running := false }
  else { s with secondsLeft := s.secondsLeft - 1 }

/-! ## Operation sequences -/

/-- The store mutators available to the user (name edits and flag toggles),
as quantified over by the task-collection invariant. -/
inductive StoreOp where
  | edit (id : Int) (value : String)
  | toggle (id : Int)

/-- Apply one store mutator to a task collection. -/
def applyStoreOp (ts : List Task) : StoreOp → List Task
  | StoreOp.edit id value => updateName id value ts
  | StoreOp.toggle id => updateRGA id ts

/-- Run a sequence of store mutators from the default collection. -/
def runStore (ops : List StoreOp) : List Task :=
  ops.foldl applyStoreOp createDefaultTasks

/-- Every event the component reacts to (plus the timer callback). -/
inductive Op where
  | click (id : Int)
  | edit (id : Int) (value : String)
  | toggle (id : Int)
  | start
  | pause
  | tick

/-- One step of the component as a whole. -/
def step (s : AppState) : Op → AppState
  | Op.click id => handleTaskClick id s
  | Op.edit id value => handleNameChange id value s
  | Op.toggle id => toggleRGA id s
  | Op.start => handleStart s
  | Op.pause => handlePause s
  | Op.tick => tick s

/-- Run an event sequence from the initial state. -/
def run (ops : List Op) : AppState :=
  ops.foldl step initState

/-! ## Predicates used to state the mutator claims -/

/-- `next` arises from `old` by replacing exactly one entry, with only its
`name` set to `value` and every other field (and every other entry)
preserved. -/
def replacesOneName (old next : List Task) (value : String) : Prop :=
  ∃ i : Fin old.length, next = old.set i { old.get i with name := value }

/-- `next` arises from `old` by replacing exactly one entry, with only its
`isRGA` flag negated and every other field (and every other entry)
preserved. -/
def replacesOneFlag (old next : List Task) : Prop :=
  ∃ i : Fin old.length, next = old.set i { old.get i with isRGA := !(old.get i).isRGA }

/-- The seconds-counter invariant: the remaining time stays within
[0, 1500]. -/
def SecondsInv (s : AppState) : Prop :=
  0 ≤ s.secondsLeft ∧ s.secondsLeft ≤ 1500

/-! ## Task-store lemmas -/

theorem updateName_map_id (id : Int) (v : String) (ts : List Task) :
    (updateName id v ts).map Task.id = ts.map Task.id := by
  simp only [updateName, List.map_map]
  apply List.map_congr_left
  intro t _
  by_cases h : t.id = id <;> simp [h]

theorem updateRGA_map_id (id : Int) (ts : List Task) :
    (updateRGA id ts).map Task.id = ts.map Task.id := by
  simp only [updateRGA, List.map_map]
  apply List.map_congr_left
  intro t _
  by_cases h : t.id = id <;> simp [h]

theorem foldl_store_ids (ops : List StoreOp) :
    ∀ ts : List Task, (ops.foldl applyStoreOp ts).map Task.id = ts.map Task.id := by
  induction ops with
  | nil => intro ts; rfl
  | cons op ops ih =>
    intro ts
    rw [List.foldl_cons, ih]
    cases op with
    | edit id v => exact updateName_map_id id v ts
    | toggle id => exact updateRGA_map_id id ts

theorem runStore_ids (ops : List StoreOp) :
    (runStore ops).map Task.id = [1, 2, 3, 4, 5, 6] := by
  rw [runStore, foldl_store_ids]
  decide

theorem ids_length {ts : List Task} (h : ts.map Task.id = [1, 2, 3, 4, 5, 6]) :
    ts.length = 6 := by
  have := congrArg List.length h
  simpa using this

theorem ids_getElem {ts : List Task} (h : ts.map Task.id = [1, 2, 3, 4, 5, 6])
    (i : Nat) (hi : i < ts.length) : (ts.get ⟨i, hi⟩).id = (i : Int) + 1 := by
  have hlen : ts.length = 6 := ids_length h
  have hi6 : i < 6 := by omega
  have hml : i < (ts.map Task.id).length := by simpa using hi
  have e1 : (ts.map Task.id).getD i 0 = (ts.get ⟨i, hi⟩).id := by
    rw [List.getD_eq_getElem _ _ hml]
    simp
  rw [h] at e1
  rw [← e1]
  interval_cases i <;> rfl

theorem mem_ids_range {ts : List Task} (h : ts.map Task.id = [1, 2, 3, 4, 5, 6])
    {t : Task} (ht : t ∈ ts) : 1 ≤ t.id ∧ t.id ≤ 6 := by
  have hm : t.id ∈ ts.map Task.id := List.mem_map_of_mem Task.id ht
  rw [h] at hm
  simp at hm
  rcases hm with h' | h' | h' | h' | h' | h' <;> omega

theorem updateName_replaces {ts : List Task} (h : ts.map Task.id = [1, 2, 3, 4, 5, 6])
    {id : Int} (h1 : 1 ≤ id) (h6 : id ≤ 6) (v : String) :
    replacesOneName ts (updateName id v ts) v := by
  have hlen : ts.length = 6 := ids_length h
  have hj : (id - 1).toNat < ts.length := by omega
  refine ⟨⟨(id - 1).toNat, hj⟩, ?_⟩
  apply List.ext_getElem
  · simp [updateName]
  · intro i hi1 hi2
    have hits : i < ts.length := by
      simp only [updateName, List.length_map] at hi1
      exact hi1
    have hid : (ts.get ⟨i, hits⟩).id = (i : Int) + 1 := ids_getElem h i hits
    simp only [List.get_eq_getElem] at hid
    simp only [updateName, List.getElem_map, List.getElem_set, List.get_eq_getElem]
    by_cases hij : (id - 1).toNat = i
    · subst hij
      have hidid : (ts[(id - 1).toNat]).id = id := by rw [hid]; omega
      rw [if_pos hidid, if_pos rfl]
    · have hne : (ts[i]).id ≠ id := by rw [hid]; omega
      rw [if_neg hne, if_neg hij]

theorem updateRGA_replaces {ts : List Task} (h : ts.map Task.id = [1, 2, 3, 4, 5, 6])
    {id : Int} (h1 : 1 ≤ id) (h6 : id ≤ 6) :
    replacesOneFlag ts (updateRGA id ts) := by
  have hlen : ts.length = 6 := ids_length h
  have hj : (id - 1).toNat < ts.length := by omega
  refine ⟨⟨(id - 1).toNat, hj⟩, ?_⟩
  apply List.ext_getElem
  · simp [updateRGA]
  · intro i hi1 hi2
    have hits : i < ts.length := by
      simp only [updateRGA, List.length_map] at hi1
      exact hi1
    have hid : (ts.get ⟨i, hits⟩).id = (i : Int) + 1 := ids_getElem h i hits
    simp only [List.get_eq_getElem] at hid
    simp only [updateRGA, List.getElem_map, List.getElem_set, List.get_eq_getElem]
    by_cases hij : (id - 1).toNat = i
    · subst hij
      have hidid : (ts[(id - 1).toNat]).id = id := by rw [hid]; omega
      rw [if_pos hidid, if_pos rfl]
    · have hne : (ts[i]).id ≠ id := by rw [hid]; omega
      rw [if_neg hne, if_neg hij]

theorem updateName_noop {ts : List Task} (h : ts.map Task.id = [1, 2, 3, 4, 5, 6])
    {id : Int} (hout : id < 1 ∨ 6 < id) (v : String) : updateName id v ts = ts := by
  unfold updateName
  conv_rhs => rw [← List.map_id ts]
  apply List.map_congr_left
  intro t ht
  have := mem_ids_range h ht
  have hne : t.id ≠ id := by omega
  simp [hne]

theorem updateRGA_noop {ts : List Task} (h : ts.map Task.id = [1, 2, 3, 4, 5, 6])
    {id : Int} (hout : id < 1 ∨ 6 < id) : updateRGA id ts = ts := by
  unfold updateRGA
  conv_rhs => rw [← List.map_id ts]
  apply List.map_congr_left
  intro t ht
  have := mem_ids_range h ht
  have hne : t.id ≠ id := by omega
  simp [hne]

/-! ## C1: the fixed-shape store invariant -/

/-- C1 counterexample: a name edit whose id (7) matches no task replaces no
entry at all — the claim that each mutator (for any id) replaces exactly one
entry fails on the default collection. -/
theorem c1_counterexample :
    ¬ replacesOneName createDefaultTasks (updateName 7 "x" createDefaultTasks) "x" := by
  simp only [replacesOneName]
  decide

/-- C1 (amended): for every sequence of name edits and flag toggles (any id,
any string) from the default collection, the store keeps exactly 6 entries
with ids 1..6 in ascending order; a mutator whose id is present (1..6)
replaces exactly that one entry, preserving all other fields of every task,
and a mutator whose id is absent is a no-op. -/
theorem c1_store_invariant :
    (∀ ops : List StoreOp,
        (runStore ops).length = 6 ∧ (runStore ops).map Task.id = [1, 2, 3, 4, 5, 6]) ∧
    (∀ (ts : List Task) (id : Int) (v : String), ts.map Task.id = [1, 2, 3, 4, 5, 6] →
        1 ≤ id → id ≤ 6 → replacesOneName ts (updateName id v ts) v) ∧
    (∀ (ts : List Task) (id : Int), ts.map Task.id = [1, 2, 3, 4, 5, 6] →
        1 ≤ id → id ≤ 6 → replacesOneFlag ts (updateRGA id ts)) ∧
    (∀ (ts : List Task) (id : Int) (v : String), ts.map Task.id = [1, 2, 3, 4, 5, 6] →
        (id < 1 ∨ 6 < id) → updateName id v ts = ts ∧ updateRGA id ts = ts) := by
  refine ⟨fun ops => ⟨?_, runStore_ids ops⟩, ?_, ?_, ?_⟩
  · have := congrArg List.length (runStore_ids ops)
    simpa using this
  · intro ts id v h h1 h6
    exact updateName_replaces h h1 h6 v
  · intro ts id h h1 h6
    exact updateRGA_replaces h h1 h6
  · intro ts id v h hout
    exact ⟨updateName_noop h hout v, updateRGA_noop h hout⟩

/-- C1 witness: a concrete valid edit replaces exactly one entry. -/
theorem c1_store_invariant_witness :
    replacesOneName createDefaultTasks (updateName 3 "a" createDefaultTasks) "a" :=
  c1_store_invariant.2.1 createDefaultTasks 3 "a" (by decide) (by decide) (by decide)

/-! ## C4: selection transitions -/

/-- C4: from any state, tapping a task stops the timer and resets the counter
to 1500; the tapped task becomes active unless it already was, in which case
the selection is cleared. -/
theorem c4_select (s : AppState) (id : Int) :
    handleTaskClick id s =
      { s with activeId := if s.activeId = some id then none else some id,
               running := false, secondsLeft := 1500 } := by
  by_cases h : s.activeId = some id <;> simp [handleTaskClick, h, TIMER_SECONDS]

/-! ## C8: start at zero is a no-op -/

/-- C8: starting at remaining time 0 leaves the whole state unchanged, and
`start` yields a running timer only when the remaining time is positive (or
it was already running). -/
theorem c8_start_at_zero (s : AppState) :
    (s.secondsLeft = 0 → handleStart s = s) ∧
    ((handleStart s).running = true ↔ 0 < s.secondsLeft ∨ s.running = true) := by
  constructor
  · intro h
    simp [handleStart, h]
  · by_cases h : 0 < s.secondsLeft <;> simp [handleStart, h]

/-- C8 witness: the state with remaining time 0. -/
theorem c8_start_at_zero_witness :
    (({ initState with secondsLeft := 0 } : AppState).secondsLeft = 0 →
        handleStart { initState with secondsLeft := 0 } =
          { initState with secondsLeft := 0 }) ∧
    ((handleStart { initState with secondsLeft := 0 }).running = true ↔
        0 < ({ initState with secondsLeft := 0 } : AppState).secondsLeft ∨
        ({ initState with secondsLeft := 0 } : AppState).running = true) :=
  c8_start_at_zero { initState with secondsLeft := 0 }

/-! ## C9: the flag toggle is an involution that touches nothing else -/

theorem updateRGA_involution (id : Int) (ts : List Task) :
    updateRGA id (updateRGA id ts) = ts := by
  induction ts with
  | nil => rfl
  | cons t ts ih =>
    rcases t with ⟨tid, tname, trga⟩
    by_cases h : tid = id <;> simp_all [updateRGA]

/-- C9: for any id in 1..6 and any state, toggling the flag twice restores
the state exactly, and one toggle changes neither the selection, the
counter, the running flag, nor any entry other than the one with the
matching id. -/
theorem c9_toggle_involution (id : Int) (h1 : 1 ≤ id) (h6 : id ≤ 6) (s : AppState) :
    toggleRGA id (toggleRGA id s) = s ∧
    (toggleRGA id s).activeId = s.activeId ∧
    (toggleRGA id s).secondsLeft = s.secondsLeft ∧
    (toggleRGA id s).running = s.running ∧
    (toggleRGA id s).tasks.length = s.tasks.length ∧
    ∀ (i : Nat) (hi : i < s.tasks.length) (hi2 : i < (toggleRGA id s).tasks.length),
      (s.tasks.get ⟨i, hi⟩).id ≠ id →
        (toggleRGA id s).tasks.get ⟨i, hi2⟩ = s.tasks.get ⟨i, hi⟩ := by
  refine ⟨?_, rfl, rfl, rfl, by simp [toggleRGA, updateRGA], ?_⟩
  · cases s
    simp [toggleRGA, updateRGA_involution]
  · intro i hi hi2 hne
    simp only [toggleRGA, updateRGA, List.get_eq_getElem, List.getElem_map] at *
    simp [hne]

/-- C9 witness: a concrete double toggle on the initial state. -/
theorem c9_toggle_involution_witness :
    toggleRGA 2 (toggleRGA 2 initState) = initState ∧
    (toggleRGA 2 initState).activeId = initState.activeId ∧
    (toggleRGA 2 initState).secondsLeft = initState.secondsLeft ∧
    (toggleRGA 2 initState).running = initState.running ∧
    (toggleRGA 2 initState).tasks.length = initState.tasks.length ∧
    ∀ (i : Nat) (hi : i < initState.tasks.length)
      (hi2 : i < (toggleRGA 2 initState).tasks.length),
      (initState.tasks.get ⟨i, hi⟩).id ≠ 2 →
        (toggleRGA 2 initState).tasks.get ⟨i, hi2⟩ = initState.tasks.get ⟨i, hi⟩ :=
  c9_toggle_involution 2 (by decide) (by decide) initState

/-! ## C10: start ignores the selection -/

/-- C10: `handleStart` checks only the remaining time, so with a positive
counter and no active task it still starts the timer, leaving the selection
empty. -/
theorem c10_start_without_selection (s : AppState) (hpos : 0 < s.secondsLeft)
    (hid : s.activeId = none) :
    handleStart s = { s with running := true } ∧
    (handleStart s).running = true ∧ (handleStart s).activeId = none := by
  refine ⟨if_pos hpos, ?_, ?_⟩ <;> simp [handleStart, hpos, hid]

/-- C10 witness: the initial state (counter 1500, nothing selected). -/
theorem c10_start_without_selection_witness :
    handleStart initState = { initState with running := true } ∧
    (handleStart initState).running = true ∧ (handleStart initState).activeId = none :=
  c10_start_without_selection initState (by decide) rfl

/-! ## C6: the seconds counter stays in [0, 1500] -/

theorem step_SecondsInv {s : AppState} (h : SecondsInv s) (op : Op) :
    SecondsInv (step s op) := by
  obtain ⟨h0, h1⟩ := h
  cases op with
  | click id =>
    by_cases hc : s.activeId = some id <;>
      simp [step, handleTaskClick, hc, SecondsInv, TIMER_SECONDS]
  | edit id v => exact ⟨h0, h1⟩
  | toggle id => exact ⟨h0, h1⟩
  | start =>
    by_cases hc : 0 < s.secondsLeft <;> simp [step, handleStart, hc, SecondsInv] <;> omega
  | pause => exact ⟨h0, h1⟩
  | tick =>
    by_cases hc : s.secondsLeft ≤ 1 <;> simp [step, tick, hc, SecondsInv] <;> omega

theorem foldl_SecondsInv (ops : List Op) :
    ∀ s : AppState, SecondsInv s → SecondsInv (ops.foldl step s) := by
  induction ops with
  | nil => intro s h; exact h
  | cons op ops ih =>
    intro s h
    rw [List.foldl_cons]
    exact ih _ (step_SecondsInv h op)

/-- C6: the counter starts at 1500, selection resets it to 1500, start and
pause leave it unchanged, a tick at 1 or 0 pins it to 0 and stops the timer,
and along every event sequence it stays in [0, 1500]. -/
theorem c6_seconds_bounds :
    initState.secondsLeft = 1500 ∧
    (∀ ops : List Op, 0 ≤ (run ops).secondsLeft ∧ (run ops).secondsLeft ≤ 1500) ∧
    (∀ (s : AppState) (id : Int), (handleTaskClick id s).secondsLeft = 1500) ∧
    (∀ s : AppState, (handleStart s).secondsLeft = s.secondsLeft) ∧
    (∀ s : AppState, (handlePause s).secondsLeft = s.secondsLeft) ∧
    (∀ s : AppState, s.secondsLeft = 1 ∨ s.secondsLeft = 0 →
        (tick s).secondsLeft = 0 ∧ (tick s).running = false) := by
  refine ⟨rfl, ?_, ?_, ?_, fun s => rfl, ?_⟩
  · intro ops
    exact foldl_SecondsInv ops initState (by constructor <;> decide)
  · intro s id
    by_cases hc : s.activeId = some id <;> simp [handleTaskClick, hc, TIMER_SECONDS]
  · intro s
    by_cases hc : 0 < s.secondsLeft <;> simp [handleStart, hc]
  · intro s h
    have hc : s.secondsLeft ≤ 1 := by omega
    simp [tick, hc]

/-- C6 witness: a stale tick fired at counter 0 keeps it at 0. -/
theorem c6_seconds_bounds_witness :
    (tick { initState with secondsLeft := 0 }).secondsLeft = 0 ∧
    (tick { initState with secondsLeft := 0 }).running = false :=
  c6_seconds_bounds.2.2.2.2.2 { initState with secondsLeft := 0 } (Or.inr rfl)

/-! ## Round-trip of the serializer through the parser -/

theorem hexVal_hexDigitChar : ∀ n < 16, hexVal (hexDigitChar n) = some n := by
  decide

/-- Parsing undoes `JSON.stringify` string escaping, for any fuel above the
number of decoded characters. -/
theorem parseStringBody_escape (s rest : List Char) :
    ∀ g : Nat, s.length < g →
      parseStringBody g (escapeList s ++ '"' :: rest) = some (s, rest) := by
  induction s with
  | nil =>
    intro g hg
    match g, hg with
    | g + 1, _ => rfl
  | cons c cs ih =>
    intro g hg
    match g, hg with
    | g + 1, hg =>
      have hcs : cs.length < g := by
        simp only [List.length_cons] at hg
        omega
      have ihg := ih g hcs
      rw [escapeList, List.append_assoc]
      by_cases h1 : c = '"'
      · subst h1
        simp [escapeChar, parseStringBody, escChar, ihg]
      by_cases h2 : c = '\\'
      · subst h2
        simp [escapeChar, parseStringBody, escChar, ihg]
      by_cases h3 : c = '\x08'
      · subst h3
        simp [escapeChar, parseStringBody, escChar, ihg]
      by_cases h4 : c = '\t'
      · subst h4
        simp [escapeChar, parseStringBody, escChar, ihg]
      by_cases h5 : c = '\n'
      · subst h5
        simp [escapeChar, parseStringBody, escChar, ihg]
      by_cases h6 : c = '\x0c'
      · subst h6
        simp [escapeChar, parseStringBody, escChar, ihg]
      by_cases h7 : c = '\r'
      · subst h7
        simp [escapeChar, parseStringBody, escChar, ihg]
      by_cases hlt : c.toNat < 32
      · have hesc : escapeChar c = ['\\', 'u', '0', '0',
            hexDigitChar (c.toNat / 16), hexDigitChar (c.toNat % 16)] := by
          simp [escapeChar, h1, h2, h3, h4, h5, h6, h7, hlt]
        rw [hesc]
        have e1 : hexVal (hexDigitChar (c.toNat / 16)) = some (c.toNat / 16) :=
          hexVal_hexDigitChar _ (by omega)
        have e2 : hexVal (hexDigitChar (c.toNat % 16)) = some (c.toNat % 16) :=
          hexVal_hexDigitChar _ (by omega)
        have hv : c.toNat / 16 * 16 + c.toNat % 16 = c.toNat := by omega
        have hlo : c.toNat < 0xD800 := by omega
        have e0 : hexVal '0' = some 0 := rfl
        simp [parseStringBody, e0, e1, e2, hv, hlo, ihg, Char.ofNat_toNat]
      · have hesc : escapeChar c = [c] := by
          simp [escapeChar, h1, h2, h3, h4, h5, h6, h7, hlt]
        rw [hesc]
        simp [parseStringBody, h1, h2, hlt, ihg]

theorem escapeChar_length_pos (c : Char) : 1 ≤ (escapeChar c).length := by
  unfold escapeChar
  repeat' split
  all_goals simp

theorem escapeList_length (s : List Char) : s.length ≤ (escapeList s).length := by
  induction s with
  | nil => simp [escapeList]
  | cons c cs ih =>
    have := escapeChar_length_pos c
    simp only [escapeList, List.length_append, List.length_cons]
    omega

/-- A rendered string literal parses back to the same string. -/
theorem parseValue_str (f : Nat) (s rest : List Char) :
    parseValue (f + 1) ('"' :: (escapeList s ++ '"' :: rest)) =
      some (Json.str (String.mk s), rest) := by
  have hsb := parseStringBody_escape s rest ((escapeList s ++ '"' :: rest).length + 1)
    (by have := escapeList_length s; simp [List.length_append]; omega)
  simp only [List.length_append, List.length_cons] at hsb
  simp [parseValue, skipWs, hsb]

/-- A rendered boolean literal parses back to the same boolean. -/
theorem parseValue_boolLit (f : Nat) (b : Bool) (rest : List Char) :
    parseValue (f + 1) (renderBoolChars b ++ rest) = some (Json.bool b, rest) := by
  cases b <;> rfl

/-- A rendered one-digit id followed by a comma parses back to the same
integer. -/
theorem parseValue_smallInt (f : Nat) (i : Int) (h0 : 0 ≤ i) (h9 : i < 10)
    (rest : List Char) :
    parseValue (f + 1) (renderInt i ++ ',' :: rest) = some (Json.num i 0, ',' :: rest) := by
  obtain ⟨n, rfl⟩ : ∃ n : Nat, i = n := ⟨i.toNat, (Int.toNat_of_nonneg h0).symm⟩
  have hn : n < 10 := by exact_mod_cast h9
  interval_cases n <;> rfl

/-- An object field (key, colon, value) followed by a comma and further
fields. -/
theorem parseFields_cons (f : Nat) (k : List Char) (v : Json) (val tail : List Char)
    (fs : List (String × Json)) (rest : List Char)
    (hval : parseValue (f + 1) (val ++ ',' :: tail) = some (v, ',' :: tail))
    (hfs : parseFields (f + 1) tail = some (fs, rest)) :
    parseFields (f + 2) ('"' :: (escapeList k ++ '"' :: ':' :: (val ++ ',' :: tail)))
      = some ((String.mk k, v) :: fs, rest) := by
  have hkey := parseStringBody_escape k (':' :: (val ++ ',' :: tail))
      ((escapeList k ++ '"' :: ':' :: (val ++ ',' :: tail)).length + 1)
      (by have := escapeList_length k; simp [List.length_append]; omega)
  simp only [List.length_append, List.length_cons] at hkey
  rw [parseFields.eq_2]
  simp [skipWs, hkey, hval, hfs]

/-- The final object field, followed by the closing brace. -/
theorem parseFields_last (f : Nat) (k : List Char) (v : Json) (val rest : List Char)
    (hval : parseValue (f + 1) (val ++ '\x7d' :: rest) = some (v, '\x7d' :: rest)) :
    parseFields (f + 2) ('"' :: (escapeList k ++ '"' :: ':' :: (val ++ '\x7d' :: rest)))
      = some ([(String.mk k, v)], rest) := by
  have hkey := parseStringBody_escape k (':' :: (val ++ '\x7d' :: rest))
      ((escapeList k ++ '"' :: ':' :: (val ++ '\x7d' :: rest)).length + 1)
      (by have := escapeList_length k; simp [List.length_append]; omega)
  simp only [List.length_append, List.length_cons] at hkey
  rw [parseFields.eq_2]
  simp [skipWs, hkey, hval]

/-- An array element followed by a comma and further elements. -/
theorem parseElems_consE (f : Nat) (v : Json) (val tail rest : List Char) (js : List Json)
    (hval : parseValue (f + 1) (val ++ ',' :: tail) = some (v, ',' :: tail))
    (hjs : parseElems (f + 1) tail = some (js, rest)) :
    parseElems (f + 2) (val ++ ',' :: tail) = some (v :: js, rest) := by
  rw [parseElems.eq_2]
  simp [skipWs, hval, hjs]

/-- The final array element, followed by the closing bracket. -/
theorem parseElems_lastE (f : Nat) (v : Json) (val rest : List Char)
    (hval : parseValue (f + 1) (val ++ ']' :: rest) = some (v, ']' :: rest)) :
    parseElems (f + 2) (val ++ ']' :: rest) = some ([v], rest) := by
  rw [parseElems.eq_2]
  simp [skipWs, hval]

/-- A rendered task object parses back to its JSON encoding (for the
one-digit ids this system uses). -/
theorem parseValue_task (f : Nat) (t : Task) (h0 : 0 ≤ t.id) (h9 : t.id < 10)
    (rest : List Char) :
    parseValue (f + 5) (renderTaskChars t ++ rest) = some (encodeTask t, rest) := by
  have hb := parseValue_boolLit f t.isRGA ('\x7d' :: rest)
  have h3 : parseFields (f + 2)
      ('"' :: (escapeList "isRGA".data ++ '"' :: ':' ::
        (renderBoolChars t.isRGA ++ '\x7d' :: rest)))
      = some ([("isRGA", Json.bool t.isRGA)], rest) :=
    parseFields_last f "isRGA".data (Json.bool t.isRGA) (renderBoolChars t.isRGA) rest hb
  have hsname : parseValue (f + 2)
      (('"' :: (escapeList t.name.data ++ ['"'])) ++ ',' ::
        ('"' :: (escapeList "isRGA".data ++ '"' :: ':' ::
          (renderBoolChars t.isRGA ++ '\x7d' :: rest))))
      = some (Json.str t.name,
          ',' :: ('"' :: (escapeList "isRGA".data ++ '"' :: ':' ::
            (renderBoolChars t.isRGA ++ '\x7d' :: rest)))) := by
    have := parseValue_str (f + 1) t.name.data
      (',' :: ('"' :: (escapeList "isRGA".data ++ '"' :: ':' ::
        (renderBoolChars t.isRGA ++ '\x7d' :: rest))))
    simpa using this
  have h2 : parseFields (f + 3)
      ('"' :: (escapeList "name".data ++ '"' :: ':' ::
        (('"' :: (escapeList t.name.data ++ ['"'])) ++ ',' ::
          ('"' :: (escapeList "isRGA".data ++ '"' :: ':' ::
            (renderBoolChars t.isRGA ++ '\x7d' :: rest))))))
      = some ([("name", Json.str t.name), ("isRGA", Json.bool t.isRGA)], rest) :=
    parseFields_cons (f + 1) "name".data (Json.str t.name) _ _ _ rest hsname h3
  have hnum := parseValue_smallInt (f + 2) t.id h0 h9
      ('"' :: (escapeList "name".data ++ '"' :: ':' ::
        (('"' :: (escapeList t.name.data ++ ['"'])) ++ ',' ::
          ('"' :: (escapeList "isRGA".data ++ '"' :: ':' ::
            (renderBoolChars t.isRGA ++ '\x7d' :: rest))))))
  have h1 : parseFields (f + 4)
      ('"' :: (escapeList "id".data ++ '"' :: ':' ::
        (renderInt t.id ++ ',' ::
          ('"' :: (escapeList "name".data ++ '"' :: ':' ::
            (('"' :: (escapeList t.name.data ++ ['"'])) ++ ',' ::
              ('"' :: (escapeList "isRGA".data ++ '"' :: ':' ::
                (renderBoolChars t.isRGA ++ '\x7d' :: rest)))))))))
      = some ([("id", Json.num t.id 0), ("name", Json.str t.name),
               ("isRGA", Json.bool t.isRGA)], rest) :=
    parseFields_cons (f + 2) "id".data (Json.num t.id 0) _ _ _ rest hnum h2
  rw [parseValue.eq_2]
  simp only [renderTaskChars, renderStringChars, List.cons_append, List.append_assoc,
    List.nil_append] at h1 ⊢
  simp [skipWs, h1, encodeTask]

/-- The elements of a rendered non-empty task array parse back to their
encodings (six fuel units per element suffice). -/
theorem parseElems_tasks :
    ∀ ts : List Task, (∀ t ∈ ts, 0 ≤ t.id ∧ t.id < 10) → ts ≠ [] →
      ∀ (f : Nat) (rest : List Char),
        parseElems (f + 6 * ts.length + 1)
            (joinComma (ts.map renderTaskChars) ++ ']' :: rest)
          = some (ts.map encodeTask, rest) := by
  intro ts
  induction ts with
  | nil => intro _ hne; exact absurd rfl hne
  | cons t ts ih =>
    intro hids hne f rest
    have h0 : 0 ≤ t.id := (hids t (List.mem_cons_self t ts)).1
    have h9 : t.id < 10 := (hids t (List.mem_cons_self t ts)).2
    cases ts with
    | nil =>
      have hval := parseValue_task (f + 1) t h0 h9 (']' :: rest)
      have hres := parseElems_lastE (f + 5) (encodeTask t) (renderTaskChars t) rest
        (by
          rw [show (f + 5) + 1 = (f + 1) + 5 from by omega]
          exact hval)
      rw [show f + 6 * ([t] : List Task).length + 1 = (f + 5) + 2 from by simp]
      simpa [joinComma] using hres
    | cons t2 ts2 =>
      have hids2 : ∀ u ∈ t2 :: ts2, 0 ≤ u.id ∧ u.id < 10 := by
        intro u hu
        exact hids u (List.mem_cons_of_mem t hu)
      have hjs0 := ih hids2 (by simp) (f + 5) rest
      rw [show f + 5 + 6 * (t2 :: ts2).length + 1 = (f + 6 * ts2.length + 11) + 1 from by
        simp only [List.length_cons]
        ring] at hjs0
      have hval0 := parseValue_task (f + 6 * ts2.length + 7) t h0 h9
        (',' :: (joinComma ((t2 :: ts2).map renderTaskChars) ++ ']' :: rest))
      rw [show f + 6 * ts2.length + 7 + 5 = (f + 6 * ts2.length + 11) + 1 from by
        omega] at hval0
      have hres := parseElems_consE (f + 6 * ts2.length + 11) (encodeTask t)
        (renderTaskChars t) (joinComma ((t2 :: ts2).map renderTaskChars) ++ ']' :: rest)
        rest ((t2 :: ts2).map encodeTask) hval0 hjs0
      rw [show f + 6 * (t :: t2 :: ts2).length + 1 = (f + 6 * ts2.length + 11) + 2 from by
        simp only [List.length_cons]
        ring]
      simpa [joinComma, List.append_assoc] using hres

/-- The rendered task array parses back to the array of encodings. -/
theorem parseValue_tasksArr (f : Nat) (ts : List Task)
    (hids : ∀ t ∈ ts, 0 ≤ t.id ∧ t.id < 10) (hne : ts ≠ []) (rest : List Char) :
    parseValue (f + 1 + 6 * ts.length + 2) (renderTasksChars ts ++ rest)
      = some (Json.arr (ts.map encodeTask), rest) := by
  obtain ⟨t, ts2, rfl⟩ : ∃ t ts2, ts = t :: ts2 := by
    cases ts with
    | nil => exact absurd rfl hne
    | cons a b => exact ⟨a, b, rfl⟩
  have helems := parseElems_tasks (t :: ts2) hids hne (f + 1) rest
  have hX : joinComma ((t :: ts2).map renderTaskChars)
      = '\x7b' :: (joinComma ((t :: ts2).map renderTaskChars)).tail := by
    cases ts2 <;> simp [joinComma, renderTaskChars]
  rw [show f + 1 + 6 * (t :: ts2).length + 2 = (f + 1 + 6 * (t :: ts2).length + 1) + 1 from by
    omega]
  rw [parseValue.eq_2]
  simp only [renderTasksChars, List.cons_append, List.append_assoc, List.nil_append]
  rw [hX] at helems ⊢
  simp only [List.cons_append, List.append_assoc] at helems ⊢
  simp only [List.length_cons, List.map_cons] at helems
  simp [skipWs, helems]

theorem renderTaskChars_length (t : Task) : 4 ≤ (renderTaskChars t).length := by
  have h4 : (renderStringChars "id".data).length = 4 := rfl
  simp only [renderTaskChars, List.length_cons, List.length_append]
  omega

theorem joinComma_length_ge :
    ∀ rs : List (List Char), (∀ r ∈ rs, 4 ≤ r.length) →
      4 * rs.length ≤ (joinComma rs).length + 1 := by
  intro rs
  induction rs with
  | nil => intro _; simp [joinComma]
  | cons r rs ih =>
    intro h
    cases rs with
    | nil =>
      have := h r (List.mem_cons_self r [])
      simp only [joinComma, List.length_cons, List.length_nil]
      omega
    | cons r2 rs2 =>
      have hr := h r (List.mem_cons_self r (r2 :: rs2))
      have hih := ih (fun u hu => h u (List.mem_cons_of_mem r hu))
      simp only [joinComma, List.length_append, List.length_cons] at hih ⊢
      omega

/-- `JSON.parse` of `JSON.stringify` of a non-empty task collection with
one-digit ids yields exactly the array of its encodings. -/
theorem parseJson_stringify (ts : List Task)
    (hids : ∀ t ∈ ts, 0 ≤ t.id ∧ t.id < 10) (hne : ts ≠ []) :
    parseJson (stringifyTasks ts) = some (Json.arr (ts.map encodeTask)) := by
  have hjt : ∀ r ∈ ts.map renderTaskChars, 4 ≤ r.length := by
    intro r hr
    obtain ⟨t, _, rfl⟩ := List.mem_map.mp hr
    exact renderTaskChars_length t
  have hj := joinComma_length_ge (ts.map renderTaskChars) hjt
  obtain ⟨f0, hf0⟩ : ∃ f0,
      2 * (renderTasksChars ts).length + 2 = f0 + 1 + 6 * ts.length + 2 := by
    refine ⟨2 * (renderTasksChars ts).length - 1 - 6 * ts.length, ?_⟩
    simp only [renderTasksChars, List.length_cons, List.length_append,
      List.length_map] at hj ⊢
    omega
  have harr := parseValue_tasksArr f0 ts hids hne []
  rw [List.append_nil] at harr
  have hdlen : (stringifyTasks ts).length = (renderTasksChars ts).length := rfl
  have hdata : (stringifyTasks ts).data = renderTasksChars ts := rfl
  unfold parseJson
  rw [hdata, hdlen, hf0, harr]
  rfl

/-- Reading back the encoding of a task restores the task. -/
theorem decodeTask_encodeTask (t : Task) : decodeTask (encodeTask t) = some t := rfl

theorem mapM_decode_loop :
    ∀ (l : List Task) (acc : List Task),
      List.mapM.loop decodeTask (l.map encodeTask) acc = some (acc.reverse ++ l) := by
  intro l
  induction l with
  | nil => intro acc; simp [List.mapM.loop]
  | cons t l ih =>
    intro acc
    simp [List.mapM.loop, decodeTask_encodeTask, ih]

theorem mapM_decode_encode (l : List Task) :
    (l.map encodeTask).mapM decodeTask = some l := by
  have := mapM_decode_loop l []
  simpa [List.mapM] using this

/-! ## C2 / C3: the load boundary -/

/-- `loadTasks` in the browser on a present raw string, written out as its
case split. -/
theorem loadTasks_some_eq (raw : String) :
    loadTasks true (Except.ok (some raw)) =
      if raw = "" then defaultTasksJson
      else
        match parseJson raw with
        | some (Json.arr xs) => if xs.length = 6 then xs else defaultTasksJson
        | some _ => defaultTasksJson
        | none => defaultTasksJson := rfl

theorem parseJson_empty : parseJson "" = none := rfl

theorem loadTasks_of_parse_none {raw : String} (h : parseJson raw = none) :
    loadTasks true (Except.ok (some raw)) = defaultTasksJson := by
  rw [loadTasks_some_eq]
  by_cases he : raw = ""
  · rw [if_pos he]
  · rw [if_neg he, h]

theorem loadTasks_of_not_arr {raw : String} {j : Json} (h : parseJson raw = some j)
    (hna : ∀ xs, j ≠ Json.arr xs) :
    loadTasks true (Except.ok (some raw)) = defaultTasksJson := by
  have he : raw ≠ "" := by
    intro he
    rw [he, parseJson_empty] at h
    cases h
  rw [loadTasks_some_eq, if_neg he, h]
  cases j with
  | arr xs => exact absurd rfl (hna xs)
  | null => rfl
  | bool b => rfl
  | num m e => rfl
  | str s => rfl
  | obj fs => rfl

theorem loadTasks_of_wrong_length {raw : String} {xs : List Json}
    (h : parseJson raw = some (Json.arr xs)) (hlen : xs.length ≠ 6) :
    loadTasks true (Except.ok (some raw)) = defaultTasksJson := by
  have he : raw ≠ "" := by
    intro he
    rw [he, parseJson_empty] at h
    cases h
  rw [loadTasks_some_eq, if_neg he, h]
  simp [hlen]

theorem loadTasks_of_six {raw : String} {xs : List Json}
    (h : parseJson raw = some (Json.arr xs)) (hlen : xs.length = 6) :
    loadTasks true (Except.ok (some raw)) = xs := by
  have he : raw ≠ "" := by
    intro he
    rw [he, parseJson_empty] at h
    cases h
  rw [loadTasks_some_eq, if_neg he, h]
  simp [hlen]

/-- C3: an absent value, a storage read that throws, unparsable JSON, a
non-array value, or an array of the wrong length all fall back to the six
default tasks (ids 1..6, empty names, false flags); the model of the load is
a total function — the `try`/`catch` turns every failure into this default
result instead of raising. -/
theorem c3_load_fallback :
    loadTasks true (Except.error ()) = defaultTasksJson ∧
    loadTasks true (Except.ok none) = defaultTasksJson ∧
    (∀ raw : String, parseJson raw = none →
        loadTasks true (Except.ok (some raw)) = defaultTasksJson) ∧
    (∀ (raw : String) (j : Json), parseJson raw = some j → (∀ xs, j ≠ Json.arr xs) →
        loadTasks true (Except.ok (some raw)) = defaultTasksJson) ∧
    (∀ (raw : String) (xs : List Json), parseJson raw = some (Json.arr xs) →
        xs.length ≠ 6 → loadTasks true (Except.ok (some raw)) = defaultTasksJson) ∧
    defaultTasksJson = createDefaultTasks.map encodeTask ∧
    createDefaultTasks =
      [{ id := 1, name := "", isRGA := false }, { id := 2, name := "", isRGA := false },
       { id := 3, name := "", isRGA := false }, { id := 4, name := "", isRGA := false },
       { id := 5, name := "", isRGA := false }, { id := 6, name := "", isRGA := false }] :=
  ⟨rfl, rfl, fun _ h => loadTasks_of_parse_none h,
   fun _ _ h hna => loadTasks_of_not_arr h hna,
   fun _ _ h hlen => loadTasks_of_wrong_length h hlen, rfl, rfl⟩

/-- C3 witness: unparsable JSON, a non-array value, and a two-element array
each load as the defaults. -/
theorem c3_load_fallback_witness :
    loadTasks true (Except.ok (some "oops")) = defaultTasksJson ∧
    loadTasks true (Except.ok (some "5")) = defaultTasksJson ∧
    loadTasks true (Except.ok (some "[1,2]")) = defaultTasksJson :=
  ⟨c3_load_fallback.2.2.1 "oops" rfl,
   c3_load_fallback.2.2.2.1 "5" (Json.num 5 0) rfl
     (fun xs h => Json.noConfusion h),
   c3_load_fallback.2.2.2.2.1 "[1,2]" [Json.num 1 0, Json.num 2 0] rfl (by decide)⟩

/-- C2 counterexample: the persisted string "[1,2,3,4,5,6]" parses to a
six-element JSON array whose elements are numbers, not task-shaped records —
the load returns it verbatim instead of discarding it for the defaults. -/
theorem c2_counterexample :
    loadTasks true (Except.ok (some "[1,2,3,4,5,6]")) =
      [Json.num 1 0, Json.num 2 0, Json.num 3 0,
       Json.num 4 0, Json.num 5 0, Json.num 6 0] ∧
    loadTasks true (Except.ok (some "[1,2,3,4,5,6]")) ≠ defaultTasksJson := by
  constructor
  · rfl
  · intro hcontra
    rw [show loadTasks true (Except.ok (some "[1,2,3,4,5,6]")) =
        [Json.num 1 0, Json.num 2 0, Json.num 3 0,
         Json.num 4 0, Json.num 5 0, Json.num 6 0] from rfl] at hcontra
    exact Json.noConfusion (List.cons.inj hcontra).1

/-- C2 (amended): the load discards an absent value, a failing read,
unparsable JSON, a non-array value, or an array whose length is not 6 and
returns the six defaults (ids 1..6, empty names, false flags); but any JSON
array of exactly six elements is accepted verbatim, with no validation of
the elements' shape or ids. -/
theorem c2_load_validation :
    loadTasks true (Except.error ()) = defaultTasksJson ∧
    loadTasks true (Except.ok none) = defaultTasksJson ∧
    (∀ raw : String, parseJson raw = none →
        loadTasks true (Except.ok (some raw)) = defaultTasksJson) ∧
    (∀ (raw : String) (j : Json), parseJson raw = some j → (∀ xs, j ≠ Json.arr xs) →
        loadTasks true (Except.ok (some raw)) = defaultTasksJson) ∧
    (∀ (raw : String) (xs : List Json), parseJson raw = some (Json.arr xs) →
        xs.length ≠ 6 → loadTasks true (Except.ok (some raw)) = defaultTasksJson) ∧
    (∀ (raw : String) (xs : List Json), parseJson raw = some (Json.arr xs) →
        xs.length = 6 → loadTasks true (Except.ok (some raw)) = xs) :=
  ⟨rfl, rfl, fun _ h => loadTasks_of_parse_none h,
   fun _ _ h hna => loadTasks_of_not_arr h hna,
   fun _ _ h hlen => loadTasks_of_wrong_length h hlen,
   fun _ _ h hlen => loadTasks_of_six h hlen⟩

/-- C2 witness: a six-element array of bare numbers is returned verbatim. -/
theorem c2_load_validation_witness :
    loadTasks true (Except.ok (some "[1,2,3,4,5,6]")) =
      [Json.num 1 0, Json.num 2 0, Json.num 3 0,
       Json.num 4 0, Json.num 5 0, Json.num 6 0] :=
  c2_load_validation.2.2.2.2.2 "[1,2,3,4,5,6]"
    [Json.num 1 0, Json.num 2 0, Json.num 3 0, Json.num 4 0, Json.num 5 0, Json.num 6 0]
    rfl (by decide)

/-! ## C5: a full 1500-tick countdown -/

theorem tick_iterate (n : Nat) :
    ∀ s : AppState, (n : Int) < s.secondsLeft →
      tick^[n] s = { s with secondsLeft := s.secondsLeft - n } := by
  induction n with
  | zero =>
    intro s h
    simp
  | succ n ih =>
    intro s h
    have hgt : ¬ s.secondsLeft ≤ 1 := by push_cast at h; omega
    rw [Function.iterate_succ_apply]
    have ht : tick s = { s with secondsLeft := s.secondsLeft - 1 } := by
      simp [tick, hgt]
    rw [ht, ih _ (by push_cast at h ⊢; omega)]
    cases s
    simp
    ring_nf

/-- C5: from a fresh selection (counter 1500, stopped) with one `start`,
every tick up to the 1499th decrements the counter by one with the timer
still running, the 1500th tick reaches 0 and stops the timer, and a further
`start` then changes nothing. -/
theorem c5_full_countdown (s : AppState) (id : Int) (hsel : s.activeId = some id)
    (hsec : s.secondsLeft = 1500) (hrun : s.running = false) :
    (∀ n : Nat, n < 1500 → (tick^[n] (handleStart s)).secondsLeft = 1500 - (n : Int)) ∧
    (∀ n : Nat, n < 1500 → (tick^[n] (handleStart s)).running = true) ∧
    (tick^[1500] (handleStart s)).secondsLeft = 0 ∧
    (tick^[1500] (handleStart s)).running = false ∧
    handleStart (tick^[1500] (handleStart s)) = tick^[1500] (handleStart s) := by
  have hstart : handleStart s = { s with running := true } := by
    apply if_pos
    omega
  have hiter : ∀ n : Nat, n < 1500 →
      tick^[n] (handleStart s) = { s with running := true, secondsLeft := 1500 - (n : Int) } := by
    intro n hn
    rw [hstart, tick_iterate n _ (by simp [hsec]; omega)]
    simp [hsec]
  have hfin : tick^[1500] (handleStart s) =
      { s with running := false, secondsLeft := 0 } := by
    have : (1500 : Nat) = 1499 + 1 := by norm_num
    rw [this, Function.iterate_succ_apply', hiter 1499 (by norm_num)]
    norm_num [tick]
  refine ⟨?_, ?_, ?_, ?_, ?_⟩
  · intro n hn
    rw [hiter n hn]
  · intro n hn
    rw [hiter n hn]
  · rw [hfin]
  · rw [hfin]
  · rw [hfin]
    simp [handleStart]

/-- C5 witness: the fresh selection of task 1 in the initial state. -/
theorem c5_full_countdown_witness :
    (∀ n : Nat, n < 1500 →
      (tick^[n] (handleStart { initState with activeId := some 1 })).secondsLeft =
        1500 - (n : Int)) ∧
    (∀ n : Nat, n < 1500 →
      (tick^[n] (handleStart { initState with activeId := some 1 })).running = true) ∧
    (tick^[1500] (handleStart { initState with activeId := some 1 })).secondsLeft = 0 ∧
    (tick^[1500] (handleStart { initState with activeId := some 1 })).running = false ∧
    handleStart (tick^[1500] (handleStart { initState with activeId := some 1 })) =
      tick^[1500] (handleStart { initState with activeId := some 1 }) :=
  c5_full_countdown { initState with activeId := some 1 } 1 rfl (by decide) rfl

/-! ## C7: persist / load round-trip -/

/-- C7: persisting any valid 6-task collection (ids 1..6 ascending, any
names, any flags) as its JSON string and loading that string back yields a
collection identical to the original: the load returns exactly the
serialized array, and decoding its entries restores the original tasks
field for field. -/
theorem c7_persist_roundtrip (ts : List Task)
    (h : ts.map Task.id = [1, 2, 3, 4, 5, 6]) :
    loadTasks true (Except.ok (some (stringifyTasks ts))) = ts.map encodeTask ∧
    (ts.map encodeTask).mapM decodeTask = some ts := by
  have hne : ts ≠ [] := by
    intro h0
    rw [h0] at h
    cases h
  have hids : ∀ t ∈ ts, 0 ≤ t.id ∧ t.id < 10 := by
    intro t ht
    have := mem_ids_range h ht
    omega
  have hp := parseJson_stringify ts hids hne
  have hlen6 : (ts.map encodeTask).length = 6 := by
    have := ids_length h
    simp [this]
  exact ⟨loadTasks_of_six hp hlen6, mapM_decode_encode ts⟩

/-- C7 witness: the default collection with task 3 renamed survives the
round-trip. -/
theorem c7_persist_roundtrip_witness :
    loadTasks true
        (Except.ok (some (stringifyTasks (updateName 3 "Write report" createDefaultTasks))))
      = (updateName 3 "Write report" createDefaultTasks).map encodeTask ∧
    ((updateName 3 "Write report" createDefaultTasks).map encodeTask).mapM decodeTask
      = some (updateName 3 "Write report" createDefaultTasks) :=
  c7_persist_roundtrip (updateName 3 "Write report" createDefaultTasks) (by decide)

end DailyFlow
